import Mathlib

/-!
Verification of the route-generation and tab-bar logic of the
`ionic-dynamic-tabs` library.

The embedded functions come from:
* `src/lib/utils/route.utils.ts` — `generateRoutes`, `generateChildrenRoutes`,
  `createComponentRoute`;
* `src/lib/models/tab.interface.ts` — `isLazyComponent` and the `Tab` data model;
* `src/lib/components/tabs/tab-bar.component.ts` — `TabBarComponent.ngOnInit`
  and `TabBarComponent.initializeRequiredIcons`.

JavaScript-specific behaviour is embedded explicitly:
* `String.prototype.replace` with a string pattern replaces only the first
  occurrence (`jsReplace`);
* object property assignment on a string-keyed record is insertion-ordered
  overwrite-or-append (`setKey`);
* `x || []` falls back to `[]` exactly when `x` is falsy (`readTabsData`);
* absent optional fields of an Angular `Route` literal are modelled as the
  default field values of the `Route` structure (`none`, `""`, `[]`).
-/

namespace DynamicTabs

/-- Runtime-observable shape of what a lazy loader's promise resolves to,
TS type `Type<any> | \x7b default: Type<any> \x7d` from `tab.interface.ts`.
The source probes it only with `'default' in loaded`; component classes are
abstracted to numeric identities. -/
inductive Loaded where
  /-- A bare component class: no `default` property. -/
  | plainComponent (c : Nat)
  /-- A container object whose `default` property holds component `c`. -/
  | moduleWithDefault (c : Nat)
deriving DecidableEq, Repr

/-- Runtime-observable shape of a value of TS type
`TabComponent = Type<any> | LazyComponent` (`tab.interface.ts`).
The source never branches on the static type: it probes
`typeof component === 'function'` (`callable`) and `'ɵcmp' in component`
(`hasCmpMarker`, Angular's compiled-component marker), and may invoke the
value as a zero-argument loader, whose promise resolves to `resolvesTo`. -/
structure TabComponent where
  /-- Identity of the JS value (reference identity). -/
  id : Nat
  /-- `typeof component === 'function'`. -/
  callable : Bool
  /-- `'ɵcmp' in component`. -/
  hasCmpMarker : Bool
  /-- Value the promise obtained by calling the value resolves to. -/
  resolvesTo : Loaded
deriving DecidableEq, Repr

/-- The `Tab` configuration interface from `tab.interface.ts`. -/
structure Tab where
  name : String
  label : String
  iconName : String
  urlPath : String
  component : TabComponent
deriving DecidableEq, Repr

/-- `isLazyComponent` from `tab.interface.ts`:
`typeof component === 'function' && !('ɵcmp' in component)`. -/
def isLazyComponent (component : TabComponent) : Bool :=
  component.callable && !component.hasCmpMarker

/-- The component bound to a route: the library's own `TabBarComponent`
class (parent route) or a tab's component value (child routes). -/
inductive RouteComponent where
  | tabBar
  | tabComp (c : TabComponent)
deriving DecidableEq, Repr

/-- The subset of the Angular `Route` record used by `route.utils.ts`.
A field the source leaves absent keeps its default value here.
`loadComponent` holds the component identity the installed loader closure
resolves to (the closure's only observable behaviour). -/
structure Route where
  path : String := ""
  component : Option RouteComponent := none
  loadComponent : Option Nat := none
  data : Option (List Tab) := none
  children : List Route := []
  redirectTo : Option String := none
  pathMatch : Option String := none

/-- JS `String.prototype.replace` with a string pattern, on character lists:
replace the first occurrence of `pat` by `repl`; leave the string unchanged
when `pat` does not occur. An empty `pat` matches at position 0. -/
def jsReplaceAux (pat repl : List Char) : List Char → List Char
  | [] => if pat.isEmpty then repl else []
  | c :: rest =>
    if pat.isPrefixOf (c :: rest) then repl ++ (c :: rest).drop pat.length
    else c :: jsReplaceAux pat repl rest

/-- JS `s.replace(pat, repl)` for a string `pat` (first occurrence only). -/
def jsReplace (s pat repl : String) : String :=
  ⟨jsReplaceAux pat.data repl.data s.data⟩

/-- `createComponentRoute` from `route.utils.ts`: a lazy component gets a
`loadComponent` closure `() => component().then(loaded => ('default' in loaded) ? loaded.default : loaded)`;
a direct component gets `\x7b component \x7d`. -/
def createComponentRoute (component : TabComponent) : Route :=
  if isLazyComponent component then
    { loadComponent :=
        some (match component.resolvesTo with
              | .moduleWithDefault c => c
              | .plainComponent c => c),
      children := [] }
  else
    { component := some (.tabComp component), children := [] }

/-- `generateChildrenRoutes` from `route.utils.ts`:
`tabs.map(tab => (\x7b path: tab.urlPath.replace('/tabs/', ''), ...createComponentRoute(tab.component) \x7d))`. -/
def generateChildrenRoutes (tabs : List Tab) : List Route :=
  tabs.map fun tab =>
    { createComponentRoute tab.component with
      path := jsReplace tab.urlPath "/tabs/" "" }

/-- `generateRoutes` from `route.utils.ts`. The source evaluates
`tabs[0].urlPath` twice; on an empty list that access faults in JS
(`tabs[0]` is `undefined`), embedded as the `none` branch. -/
def generateRoutes (tabs : List Tab) : Option (List Route) :=
  match tabs[0]? with
  | none => none
  | some first =>
    some
      [ { path := "tabs",
          component := some .tabBar,
          data := some tabs,
          children :=
            generateChildrenRoutes tabs ++
              [ { path := "",
                  redirectTo := some (jsReplace first.urlPath "/tabs/" ""),
                  pathMatch := some "full",
                  children := [] } ] },
        { path := "",
          redirectTo := some first.urlPath,
          pathMatch := some "full",
          children := [] } ]

/-- Reading of a path "with the fixed `/tabs/` prefix removed" used by the
specification: drop the leading six characters when the path starts with
`/tabs/`, otherwise leave the path unchanged. -/
def removeTabsPrefixSpec (s : String) : String :=
  if "/tabs/".data.isPrefixOf s.data then ⟨s.data.drop "/tabs/".length⟩ else s

/-- An icon asset from the external `ionicons/icons` catalog, abstracted to
its identity (in reality an SVG data URL). -/
abbrev IconAsset := Nat

/-- A JS string-keyed record of icon assets, modelled as an
insertion-ordered association list (the shape passed to `addIcons`). -/
abbrev IconMap := List (String × IconAsset)

/-- JS object property assignment `acc[k] = v` on a string-keyed record:
overwrite in place when the key already exists, append otherwise. -/
def setKey (m : IconMap) (k : String) (v : IconAsset) : IconMap :=
  if m.any (fun e => e.1 == k) then
    m.map fun e => if e.1 == k then (k, v) else e
  else m ++ [(k, v)]

/-- One step of the `reduce` in `TabBarComponent.initializeRequiredIcons`
(`tab-bar.component.ts`): look the camelCased icon name up in the catalog;
on a hit store the asset under the tab's original `iconName`, on a miss
emit the warning `Icon not found: ...iconName` (second component).
`camel` is the external `change-case` converter and `allIcons` the external
icon catalog, both parameters of the embedding. -/
def iconStep (camel : String → String) (allIcons : String → Option IconAsset)
    (acc : IconMap × List String) (tab : Tab) : IconMap × List String :=
  match allIcons (camel tab.iconName) with
  | some a => (setKey acc.1 tab.iconName a, acc.2)
  | none => (acc.1, acc.2 ++ ["Icon not found: " ++ tab.iconName])

/-- `TabBarComponent.initializeRequiredIcons` (`tab-bar.component.ts`):
the `reduce` over `tabs` starting from the empty record. Returns the
record handed to the `addIcons` registration sink together with the list
of warnings written to the console. The embedding is a total function:
no input raises an exception. -/
def initializeRequiredIcons (camel : String → String)
    (allIcons : String → Option IconAsset) (tabs : List Tab) :
    IconMap × List String :=
  tabs.foldl (iconStep camel allIcons) ([], [])

/-- The JS value found under the `tabs` key of `this.route.snapshot.data`:
either an array of tabs, or the key is absent (`undefined`), or it holds
`null`. -/
inductive TabsDataVal where
  | list (l : List Tab)
  | absent
  | nullVal
deriving Repr

/-- `this.route.snapshot.data['tabs'] || []` from `ngOnInit`: JS `||`
yields the right operand exactly when the left is falsy (`undefined`,
`null`); an array — even an empty one — is truthy and is kept. -/
def readTabsData : TabsDataVal → List Tab
  | .list l => l
  | .absent => []
  | .nullVal => []

/-- The observable component state set by `ngOnInit`. -/
structure TabBarComponentState where
  tabs : List Tab
deriving Repr

/-- `TabBarComponent.ngOnInit` (`tab-bar.component.ts`): set `this.tabs`
from the route data (defaulting to `[]`), then run
`initializeRequiredIcons`. Returns the new state, the icon record passed
to `addIcons` and the console warnings. -/
def ngOnInit (camel : String → String) (allIcons : String → Option IconAsset)
    (routeData : TabsDataVal) :
    TabBarComponentState × IconMap × List String :=
  ({ tabs := readTabsData routeData },
   initializeRequiredIcons camel allIcons (readTabsData routeData))

/-- A directly provided Angular component class: callable (a class is a
function) and carrying the compiled-component marker. -/
def directComponentEx : TabComponent :=
  { id := 1, callable := true, hasCmpMarker := true,
    resolvesTo := .plainComponent 1 }

/-- A lazy loader resolving to a bare component class (identity 5). -/
def lazyBareEx : TabComponent :=
  { id := 2, callable := true, hasCmpMarker := false,
    resolvesTo := .plainComponent 5 }

/-- A lazy loader resolving to a module object whose `default` export is
component 7. -/
def lazyDefaultEx : TabComponent :=
  { id := 3, callable := true, hasCmpMarker := false,
    resolvesTo := .moduleWithDefault 7 }

/-- Concrete tab builder for the example instances below. -/
def mkTabEx (nm url icon : String) : Tab :=
  { name := nm, label := nm, iconName := icon, urlPath := url,
    component := directComponentEx }

/-- The README's home tab. -/
def homeTabEx : Tab := mkTabEx "home" "/tabs/home" "home-outline"

/-- A second tab. -/
def settingsTabEx : Tab := mkTabEx "settings" "/tabs/settings" "settings-outline"

/-- A tab whose path contains `/tabs/` twice. -/
def doubleTabsTabEx : Tab := mkTabEx "weird" "/tabs/a/tabs/b" "home-outline"

/-- A tab whose path contains `/tabs/` away from the start, twice. -/
def midTabsTabEx : Tab := mkTabEx "mid" "x/tabs/a/tabs/b" "home-outline"

/-- A list with duplicated `name` and `urlPath` values. -/
def dupTabsEx : List Tab := [homeTabEx, homeTabEx, settingsTabEx]

/-- Concrete stand-in for the external camelCase converter on the icon
names used in the examples. -/
def camelEx (s : String) : String :=
  if s == "home-outline" then "homeOutline"
  else if s == "homeOutline" then "homeOutline"
  else if s == "not-a-real-icon" then "notARealIcon"
  else s

/-- Concrete icon catalog containing only `homeOutline`. -/
def allIconsEx (s : String) : Option IconAsset :=
  if s == "homeOutline" then some 1 else none

/-- A tab whose icon resolves in `allIconsEx`. -/
def hitTabEx : Tab := homeTabEx

/-- A tab whose icon is missing from `allIconsEx`. -/
def missTabEx : Tab := mkTabEx "bad" "/tabs/bad" "not-a-real-icon"

/-- Example list mixing an icon hit and an icon miss. -/
def iconTabsEx : List Tab := [hitTabEx, missTabEx]

/-- First clash tab: original icon name `home-outline`. -/
def clashTab1Ex : Tab := homeTabEx

/-- Second clash tab: its original icon name `homeOutline` equals the
camelCased form of `clashTab1Ex`'s icon name. -/
def clashTab2Ex : Tab := mkTabEx "clash" "/tabs/clash" "homeOutline"

/-- Example list in which one tab's original icon name coincides with
another tab's camelCased icon name. -/
def clashTabsEx : List Tab := [clashTab1Ex, clashTab2Ex]

/-! ### Lemmas about `jsReplaceAux` -/

/-- When the pattern matches at the head, `jsReplaceAux` replaces it there
and keeps the tail. -/
theorem jsReplaceAux_head_match (pat repl l : List Char)
    (h : pat.isPrefixOf l = true) :
    jsReplaceAux pat repl l = repl ++ l.drop pat.length := by
  cases l with
  | nil =>
    cases pat with
    | nil => simp [jsReplaceAux]
    | cons p ps => simp [List.isPrefixOf] at h
  | cons c rest => simp [jsReplaceAux, h]

/-- `jsReplaceAux` removes exactly the first occurrence of the pattern:
if the pattern matches at position `i` and at no earlier position, the
result is the input with the `pat.length` characters at `i` cut out. -/
theorem jsReplaceAux_first_occurrence (pat : List Char) (hpat : pat ≠ []) :
    ∀ (i : Nat) (l : List Char),
      pat.isPrefixOf (l.drop i) = true →
      (∀ j, j < i → pat.isPrefixOf (l.drop j) = false) →
      jsReplaceAux pat [] l = l.take i ++ l.drop (i + pat.length) := by
  intro i
  induction i with
  | zero =>
    intro l h _
    simpa using jsReplaceAux_head_match pat [] l (by simpa using h)
  | succ n ih =>
    intro l h hbef
    cases l with
    | nil =>
      cases pat with
      | nil => exact absurd rfl hpat
      | cons p ps => simp [List.isPrefixOf] at h
    | cons c rest =>
      have h0 : pat.isPrefixOf (c :: rest) = false := by
        simpa using hbef 0 (Nat.succ_pos n)
      have ih' := ih rest (by simpa using h)
        (fun j hj => by simpa using hbef (j + 1) (Nat.succ_lt_succ hj))
      have harr : n + 1 + pat.length = (n + pat.length) + 1 := by omega
      simp [jsReplaceAux, h0, ih', harr]

/-- On a path that starts with `/tabs/`, the source's
`urlPath.replace('/tabs/', '')` coincides with genuine prefix removal. -/
theorem jsReplace_eq_removeTabsPrefixSpec (s : String)
    (h : "/tabs/".data.isPrefixOf s.data = true) :
    jsReplace s "/tabs/" "" = removeTabsPrefixSpec s := by
  have hrw := jsReplaceAux_head_match "/tabs/".data "".data s.data h
  simp [jsReplace, removeTabsPrefixSpec, h, hrw]
  rfl

/-! ### Lemmas for the icon-registration fold -/

/-- Entries of `setKey m k v` come from `m` or are the new pair. -/
theorem setKey_entries (m : IconMap) (k : String) (v : IconAsset) :
    ∀ e ∈ setKey m k v, e ∈ m ∨ e = (k, v) := by
  intro e he
  unfold setKey at he
  by_cases hany : m.any (fun e => e.1 == k) = true
  · simp only [hany, if_true] at he
    obtain ⟨e2, he2, heq⟩ := List.mem_map.mp he
    by_cases hk : e2.1 == k
    · rw [if_pos hk] at heq
      exact Or.inr heq.symm
    · rw [if_neg hk] at heq
      exact Or.inl (heq ▸ he2)
  · simp only [hany, if_false] at he
    rcases List.mem_append.mp he with h | h
    · exact Or.inl h
    · exact Or.inr (by simpa using h)

/-- Warnings only accumulate along the icon fold. -/
theorem foldl_iconStep_warnings_mono (camel : String → String)
    (allIcons : String → Option IconAsset) :
    ∀ (tabs : List Tab) (acc : IconMap × List String) (w : String),
      w ∈ acc.2 → w ∈ (tabs.foldl (iconStep camel allIcons) acc).2 := by
  intro tabs
  induction tabs with
  | nil => intro acc w hw; simpa using hw
  | cons t ts ih =>
    intro acc w hw
    rw [List.foldl_cons]
    apply ih
    rcases hx : allIcons (camel t.iconName) with _ | a <;>
      simp [iconStep, hx, hw]

/-- Every map entry produced by the icon fold satisfies any predicate
that holds of the initial entries and of every catalog-hit pair. -/
theorem foldl_iconStep_entries (camel : String → String)
    (allIcons : String → Option IconAsset) (K : String × IconAsset → Prop) :
    ∀ (tabs : List Tab) (acc : IconMap × List String),
      (∀ e ∈ acc.1, K e) →
      (∀ t ∈ tabs, ∀ a, allIcons (camel t.iconName) = some a →
        K (t.iconName, a)) →
      ∀ e ∈ (tabs.foldl (iconStep camel allIcons) acc).1, K e := by
  intro tabs
  induction tabs with
  | nil => intro acc hacc _ e he; exact hacc e (by simpa using he)
  | cons t ts ih =>
    intro acc hacc htabs e he
    rw [List.foldl_cons] at he
    refine ih (iconStep camel allIcons acc t) ?_
      (fun t2 ht2 => htabs t2 (List.mem_cons_of_mem t ht2)) e he
    intro e2 he2
    rcases hx : allIcons (camel t.iconName) with _ | a
    · simp only [iconStep, hx] at he2
      exact hacc e2 he2
    · simp only [iconStep, hx] at he2
      rcases setKey_entries acc.1 t.iconName a e2 he2 with hm | hkv
      · exact hacc e2 hm
      · exact hkv ▸ htabs t (List.mem_cons_self t ts) a hx

/-- The count of entries keyed `k` is related to `any` at `k`. -/
theorem any_key_iff_countP_pos (m : IconMap) (k : String) :
    m.any (fun e => e.1 == k) = true ↔
      0 < m.countP (fun e => e.1 == k) := by
  rw [List.any_eq_true, List.countP_pos_iff]

/-- `setKey` with a different key leaves the count of entries keyed `k`
unchanged. -/
theorem countP_setKey_other (m : IconMap) (kk : String) (v : IconAsset)
    (k : String) (hk : kk ≠ k) :
    (setKey m kk v).countP (fun e => e.1 == k) =
      m.countP (fun e => e.1 == k) := by
  unfold setKey
  by_cases hany : m.any (fun e => e.1 == kk) = true
  · rw [if_pos hany, List.countP_map]
    apply List.countP_congr
    intro e _
    by_cases hek : e.1 == kk
    · have he : e.1 = kk := by simpa using hek
      simp [Function.comp, hek, he, hk]
    · simp [Function.comp, hek]
  · rw [if_neg hany, List.countP_append]
    simp [hk]

/-- `setKey` at a key already present preserves the count at that key. -/
theorem countP_setKey_mem (m : IconMap) (k : String) (v : IconAsset)
    (hany : m.any (fun e => e.1 == k) = true) :
    (setKey m k v).countP (fun e => e.1 == k) =
      m.countP (fun e => e.1 == k) := by
  unfold setKey
  rw [if_pos hany, List.countP_map]
  apply List.countP_congr
  intro e _
  by_cases hek : e.1 == k <;> simp [Function.comp, hek]

/-- `setKey` at an absent key adds exactly one entry at that key. -/
theorem countP_setKey_new (m : IconMap) (k : String) (v : IconAsset)
    (hany : ¬ m.any (fun e => e.1 == k) = true) :
    (setKey m k v).countP (fun e => e.1 == k) =
      m.countP (fun e => e.1 == k) + 1 := by
  unfold setKey
  rw [if_neg hany, List.countP_append]
  simp

/-- The icon fold preserves an entry count of one at key `k`. -/
theorem foldl_iconStep_countP_one (camel : String → String)
    (allIcons : String → Option IconAsset) (k : String) :
    ∀ (tabs : List Tab) (acc : IconMap × List String),
      acc.1.countP (fun e => e.1 == k) = 1 →
      (tabs.foldl (iconStep camel allIcons) acc).1.countP
        (fun e => e.1 == k) = 1 := by
  intro tabs
  induction tabs with
  | nil => intro acc h; simpa using h
  | cons t ts ih =>
    intro acc h
    rw [List.foldl_cons]
    apply ih
    show (iconStep camel allIcons acc t).1.countP (fun e => e.1 == k) = 1
    rcases hx : allIcons (camel t.iconName) with _ | a
    · simpa [iconStep, hx] using h
    · simp only [iconStep, hx]
      by_cases ht : t.iconName = k
      · subst ht
        have hany : acc.1.any (fun e => e.1 == t.iconName) = true := by
          rw [any_key_iff_countP_pos]
          omega
        rw [countP_setKey_mem acc.1 t.iconName a hany]
        exact h
      · rw [countP_setKey_other acc.1 t.iconName a k ht]
        exact h

/-- Starting from a map with no entry keyed `k`, once some tab with icon
name `k` hits the catalog, the final count at `k` is exactly one. -/
theorem foldl_iconStep_countP_hit (camel : String → String)
    (allIcons : String → Option IconAsset) (k : String) (a : IconAsset)
    (hhit : allIcons (camel k) = some a) :
    ∀ (tabs : List Tab) (acc : IconMap × List String),
      acc.1.countP (fun e => e.1 == k) = 0 →
      (∃ t ∈ tabs, t.iconName = k) →
      (tabs.foldl (iconStep camel allIcons) acc).1.countP
        (fun e => e.1 == k) = 1 := by
  intro tabs
  induction tabs with
  | nil =>
    intro acc h0 hex
    obtain ⟨t, ht, _⟩ := hex
    simp at ht
  | cons t ts ih =>
    intro acc h0 hex
    rw [List.foldl_cons]
    by_cases ht : t.iconName = k
    · apply foldl_iconStep_countP_one
      show (iconStep camel allIcons acc t).1.countP (fun e => e.1 == k) = 1
      have hany : ¬ acc.1.any (fun e => e.1 == k) = true := by
        rw [any_key_iff_countP_pos]
        omega
      simp only [iconStep, ht, hhit]
      rw [countP_setKey_new acc.1 k a hany, h0]
    · obtain ⟨t2, ht2, hk2⟩ := hex
      have ht2ts : t2 ∈ ts := by
        rcases List.mem_cons.mp ht2 with rfl | h
        · exact absurd hk2 ht
        · exact h
      refine ih _ ?_ ⟨t2, ht2ts, hk2⟩
      show (iconStep camel allIcons acc t).1.countP (fun e => e.1 == k) = 0
      rcases hx : allIcons (camel t.iconName) with _ | b
      · simpa [iconStep, hx] using h0
      · simp only [iconStep, hx]
        rw [countP_setKey_other acc.1 t.iconName b k ht]
        exact h0

/-- A tab whose camelCased icon name misses the catalog leaves its
warning in the fold's console output. -/
theorem foldl_iconStep_warning_of_miss (camel : String → String)
    (allIcons : String → Option IconAsset) :
    ∀ (tabs : List Tab) (acc : IconMap × List String) (t : Tab),
      t ∈ tabs → allIcons (camel t.iconName) = none →
      ("Icon not found: " ++ t.iconName) ∈
        (tabs.foldl (iconStep camel allIcons) acc).2 := by
  intro tabs
  induction tabs with
  | nil => intro acc t ht _; simp at ht
  | cons th ts ih =>
    intro acc t ht hmiss
    rw [List.foldl_cons]
    rcases List.mem_cons.mp ht with rfl | hts
    · apply foldl_iconStep_warnings_mono
      simp [iconStep, hmiss]
    · exact ih _ t hts hmiss

/-! ### Claim theorems -/

/-- C3: `createComponentRoute` classifies a reference as deferred (installs
a `loadComponent` binding) exactly when the reference is callable and lacks
the framework's compiled-component marker; a reference classified direct is
returned as the bare binding holding exactly that reference, with no loader
wrapper and nothing else set. -/
theorem createComponentRoute_classification (c : TabComponent) :
    ((createComponentRoute c).loadComponent ≠ none ↔
      c.callable = true ∧ c.hasCmpMarker = false) ∧
    (c.callable = false ∨ c.hasCmpMarker = true →
      createComponentRoute c =
        { component := some (.tabComp c), children := [] }) := by
  obtain ⟨i, cb, mk, r⟩ := c
  cases cb <;> cases mk <;>
    simp [createComponentRoute, isLazyComponent]

/-- Witness for C3 at a concrete direct component. -/
theorem createComponentRoute_classification_witness :
    createComponentRoute directComponentEx =
      { component := some (.tabComp directComponentEx), children := [] } :=
  (createComponentRoute_classification directComponentEx).2 (Or.inr rfl)

/-- C4: for a deferred loader, the `loadComponent` binding resolves to the
value under the `default` property when the loader's promise yields a
container exposing one, and to the bare resolved reference unchanged
otherwise. -/
theorem createComponentRoute_lazy_unwrap (c : TabComponent)
    (hc : c.callable = true) (hm : c.hasCmpMarker = false) :
    (∀ d, c.resolvesTo = Loaded.moduleWithDefault d →
      (createComponentRoute c).loadComponent = some d) ∧
    (∀ b, c.resolvesTo = Loaded.plainComponent b →
      (createComponentRoute c).loadComponent = some b) := by
  constructor <;> intro x hx <;>
    simp [createComponentRoute, isLazyComponent, hc, hm, hx]

/-- Witness for C4 at the two concrete loaders. -/
theorem createComponentRoute_lazy_unwrap_witness :
    (createComponentRoute lazyDefaultEx).loadComponent = some 7 ∧
    (createComponentRoute lazyBareEx).loadComponent = some 5 :=
  ⟨(createComponentRoute_lazy_unwrap lazyDefaultEx rfl rfl).1 7 rfl,
   (createComponentRoute_lazy_unwrap lazyBareEx rfl rfl).2 5 rfl⟩

/-- C5 counterexample: on the path `/tabs/a/tabs/b` the generated child
path is `a/tabs/b` — the second occurrence of `/tabs/` survives — and not
the `ab` that stripping every occurrence would produce. -/
theorem generateChildrenRoutes_keeps_second_occurrence :
    (generateChildrenRoutes [doubleTabsTabEx]).map Route.path = ["a/tabs/b"] ∧
    ("a/tabs/b" : String) ≠ "ab" := by
  constructor
  · decide
  · decide

/-- C5 amended: the stripping step removes exactly the first occurrence of
`/tabs/`, wherever in the path that occurrence lies (not only at the
start); any later occurrence is kept. -/
theorem generateChildrenRoutes_strips_first_occurrence (t : Tab) (i : Nat)
    (hocc : "/tabs/".data.isPrefixOf (t.urlPath.data.drop i) = true)
    (hbefore : ∀ j, j < i →
      "/tabs/".data.isPrefixOf (t.urlPath.data.drop j) = false) :
    (generateChildrenRoutes [t]).map Route.path =
      [⟨t.urlPath.data.take i ++ t.urlPath.data.drop (i + 6)⟩] := by
  have h6 : ("/tabs/".data).length = 6 := by decide
  have hrw := jsReplaceAux_first_occurrence "/tabs/".data (by decide)
    i t.urlPath.data hocc hbefore
  rw [h6] at hrw
  simp [generateChildrenRoutes, jsReplace]
  exact congrArg String.mk hrw

/-- Witness for the amended C5: in `x/tabs/a/tabs/b` the first occurrence,
which is not at the start, is removed and the second kept. -/
theorem generateChildrenRoutes_strips_first_occurrence_witness :
    (generateChildrenRoutes [midTabsTabEx]).map Route.path = ["xa/tabs/b"] := by
  have h := generateChildrenRoutes_strips_first_occurrence midTabsTabEx 1
    (by decide)
    (fun j hj => by
      have hj0 : j = 0 := Nat.lt_one_iff.mp hj
      subst hj0
      decide)
  exact h.trans (by decide)

/-- C7: `generateRoutes` is total on every non-empty descriptor list (the
only per-index access, element zero, is in bounds), and on the empty list
the element-zero dereference has no defined behaviour — the error branch
of the embedding is reached. -/
theorem generateRoutes_total_on_nonempty (tabs : List Tab) :
    (tabs ≠ [] → ∃ rs, generateRoutes tabs = some rs) ∧
    generateRoutes ([] : List Tab) = none := by
  constructor
  · intro h
    cases tabs with
    | nil => exact absurd rfl h
    | cons t ts =>
      have hs : (generateRoutes (t :: ts)).isSome = true := by
        simp [generateRoutes]
      exact Option.isSome_iff_exists.mp hs
  · rfl

/-- Witness for C7 at a concrete singleton list. -/
theorem generateRoutes_total_on_nonempty_witness :
    ∃ rs, generateRoutes [homeTabEx] = some rs :=
  (generateRoutes_total_on_nonempty [homeTabEx]).1 (by simp)

/-- C1: on every non-empty descriptor list whose paths carry the `/tabs/`
route prefix, `generateRoutes` places under the parent `tabs` route one
child route per descriptor, in input order, each child's path being the
descriptor's `urlPath` with the prefix removed, followed only by the
default redirect; duplicate `name` or `urlPath` values are neither
detected nor deduplicated (the list is arbitrary and the count is exact). -/
theorem generateRoutes_children_structure (tabs : List Tab)
    (hne : tabs ≠ [])
    (hpre : ∀ t ∈ tabs, "/tabs/".data.isPrefixOf t.urlPath.data = true) :
    ∃ parent rootRedirect lastChild,
      generateRoutes tabs = some [parent, rootRedirect] ∧
      parent.path = "tabs" ∧
      parent.children =
        (tabs.map fun t =>
          { createComponentRoute t.component with
            path := removeTabsPrefixSpec t.urlPath }) ++ [lastChild] := by
  obtain ⟨t0, rest, rfl⟩ := List.exists_cons_of_ne_nil hne
  have hmap : generateChildrenRoutes (t0 :: rest) =
      (t0 :: rest).map fun t =>
        { createComponentRoute t.component with
          path := removeTabsPrefixSpec t.urlPath } := by
    unfold generateChildrenRoutes
    apply List.map_congr_left
    intro t ht
    rw [jsReplace_eq_removeTabsPrefixSpec t.urlPath (hpre t ht)]
  refine ⟨{ path := "tabs", component := some .tabBar,
            data := some (t0 :: rest),
            children := generateChildrenRoutes (t0 :: rest) ++
              [{ path := "",
                 redirectTo := some (jsReplace t0.urlPath "/tabs/" ""),
                 pathMatch := some "full", children := [] }] },
          { path := "", redirectTo := some t0.urlPath,
            pathMatch := some "full", children := [] },
          { path := "",
            redirectTo := some (jsReplace t0.urlPath "/tabs/" ""),
            pathMatch := some "full", children := [] },
          ?_, rfl, ?_⟩
  · simp [generateRoutes]
  · rw [hmap]

/-- Witness for C1 on a list with duplicated name and path values. -/
theorem generateRoutes_children_structure_witness :
    ∃ parent rootRedirect lastChild,
      generateRoutes dupTabsEx = some [parent, rootRedirect] ∧
      parent.path = "tabs" ∧
      parent.children =
        (dupTabsEx.map fun t =>
          { createComponentRoute t.component with
            path := removeTabsPrefixSpec t.urlPath }) ++ [lastChild] :=
  generateRoutes_children_structure dupTabsEx (by decide) (by decide)

/-- C2: `generateRoutes` appends to the parent's children a default
redirect (`path ""`, `pathMatch "full"`) targeting the first descriptor's
stripped path, and emits a root-level entry (`path ""`, `pathMatch
"full"`) targeting the first descriptor's full, unstripped `urlPath`. -/
theorem generateRoutes_redirects (t0 : Tab) (rest : List Tab)
    (hpre : "/tabs/".data.isPrefixOf t0.urlPath.data = true) :
    ∃ parent,
      generateRoutes (t0 :: rest) =
        some [parent,
          { path := "", redirectTo := some t0.urlPath,
            pathMatch := some "full", children := [] }] ∧
      parent.children.getLast? =
        some { path := "",
               redirectTo := some (removeTabsPrefixSpec t0.urlPath),
               pathMatch := some "full", children := [] } := by
  refine ⟨{ path := "tabs", component := some .tabBar,
            data := some (t0 :: rest),
            children := generateChildrenRoutes (t0 :: rest) ++
              [{ path := "",
                 redirectTo := some (jsReplace t0.urlPath "/tabs/" ""),
                 pathMatch := some "full", children := [] }] }, ?_, ?_⟩
  · simp [generateRoutes]
  · rw [List.getLast?_concat, jsReplace_eq_removeTabsPrefixSpec t0.urlPath hpre]

/-- Witness for C2 on a concrete two-tab list. -/
theorem generateRoutes_redirects_witness :
    ∃ parent,
      generateRoutes (homeTabEx :: [settingsTabEx]) =
        some [parent,
          { path := "", redirectTo := some homeTabEx.urlPath,
            pathMatch := some "full", children := [] }] ∧
      parent.children.getLast? =
        some { path := "",
               redirectTo := some (removeTabsPrefixSpec homeTabEx.urlPath),
               pathMatch := some "full", children := [] } :=
  generateRoutes_redirects homeTabEx [settingsTabEx] (by decide)

/-- C6: `generateRoutes` is deterministic on structurally equal inputs and
has no observable side effects in the embedding; the input list itself is
embedded, unchanged, as the parent route's `data.tabs`. -/
theorem generateRoutes_pure (tabs tabs2 : List Tab)
    (heq : tabs = tabs2) (hne : tabs ≠ []) :
    generateRoutes tabs = generateRoutes tabs2 ∧
    ∃ parent rest2, generateRoutes tabs = some (parent :: rest2) ∧
      parent.data = some tabs := by
  subst heq
  refine ⟨rfl, ?_⟩
  obtain ⟨t0, ts, rfl⟩ := List.exists_cons_of_ne_nil hne
  refine ⟨{ path := "tabs", component := some .tabBar,
            data := some (t0 :: ts),
            children := generateChildrenRoutes (t0 :: ts) ++
              [{ path := "",
                 redirectTo := some (jsReplace t0.urlPath "/tabs/" ""),
                 pathMatch := some "full", children := [] }] },
          [{ path := "", redirectTo := some t0.urlPath,
             pathMatch := some "full", children := [] }], ?_, rfl⟩
  simp [generateRoutes]

/-- Witness for C6 on a concrete list. -/
theorem generateRoutes_pure_witness :
    generateRoutes dupTabsEx = generateRoutes dupTabsEx ∧
    ∃ parent rest2, generateRoutes dupTabsEx = some (parent :: rest2) ∧
      parent.data = some dupTabsEx :=
  generateRoutes_pure dupTabsEx dupTabsEx rfl (by decide)

/-- C8: on activation `ngOnInit` sets the component's descriptor list to
the value under the `tabs` key of the routing data, defaulting to the
empty list when that value is absent or otherwise falsy, and proceeds
without raising an error (the embedding is total). -/
theorem ngOnInit_reads_tabs (camel : String → String)
    (allIcons : String → Option IconAsset) :
    (∀ l, (ngOnInit camel allIcons (.list l)).1.tabs = l) ∧
    (ngOnInit camel allIcons .absent).1.tabs = [] ∧
    (ngOnInit camel allIcons .nullVal).1.tabs = [] :=
  ⟨fun _ => rfl, rfl, rfl⟩

/-- C9: icon initialization is a total function (the embedding raises no
exception); a descriptor whose camelCased icon name misses the catalog
gets a warning and contributes no entry under its icon name, while a
descriptor whose camelCased icon name hits the catalog yields exactly one
entry under its icon name in the mapping passed to the registration sink. -/
theorem initializeRequiredIcons_miss_hit (camel : String → String)
    (allIcons : String → Option IconAsset) (tabs : List Tab) (t : Tab)
    (ht : t ∈ tabs) :
    (allIcons (camel t.iconName) = none →
      ("Icon not found: " ++ t.iconName) ∈
        (initializeRequiredIcons camel allIcons tabs).2 ∧
      ∀ e ∈ (initializeRequiredIcons camel allIcons tabs).1,
        e.1 ≠ t.iconName) ∧
    (∀ a, allIcons (camel t.iconName) = some a →
      (initializeRequiredIcons camel allIcons tabs).1.countP
        (fun e => e.1 == t.iconName) = 1) := by
  constructor
  · intro hmiss
    constructor
    · exact foldl_iconStep_warning_of_miss camel allIcons tabs ([], []) t
        ht hmiss
    · apply foldl_iconStep_entries camel allIcons
        (fun e => e.1 ≠ t.iconName) tabs ([], [])
      · intro e he
        simp at he
      · intro t2 _ a ha hEq
        have hEq2 : t2.iconName = t.iconName := hEq
        rw [hEq2, hmiss] at ha
        exact Option.noConfusion ha
  · intro a ha
    exact foldl_iconStep_countP_hit camel allIcons t.iconName a ha tabs
      ([], []) (by simp) ⟨t, ht, rfl⟩

/-- Witness for C9: the miss tab's warning is present and the hit tab's
icon name is keyed exactly once. -/
theorem initializeRequiredIcons_miss_hit_witness :
    ("Icon not found: " ++ "not-a-real-icon") ∈
      (initializeRequiredIcons camelEx allIconsEx iconTabsEx).2 ∧
    (initializeRequiredIcons camelEx allIconsEx iconTabsEx).1.countP
      (fun e => e.1 == "home-outline") = 1 :=
  ⟨((initializeRequiredIcons_miss_hit camelEx allIconsEx iconTabsEx
      missTabEx (by decide)).1 (by decide)).1,
   (initializeRequiredIcons_miss_hit camelEx allIconsEx iconTabsEx
      hitTabEx (by decide)).2 1 (by decide)⟩

/-- C10 counterexample: with one tab's original icon name equal to the
camelCased form of another's, the camelCased key does appear in the
registered mapping although it differs from the original name. -/
theorem camelCased_key_without_matching_original :
    clashTab1Ex ∈ clashTabsEx ∧
    (∃ e ∈ (initializeRequiredIcons camelEx allIconsEx clashTabsEx).1,
      e.1 = camelEx clashTab1Ex.iconName) ∧
    camelEx clashTab1Ex.iconName ≠ clashTab1Ex.iconName := by
  refine ⟨by decide, ⟨("homeOutline", 1), by decide, by decide⟩, by decide⟩

/-- C10 amended: every entry of the registered mapping is keyed by some
descriptor's original icon name and valued by the catalog asset under the
camelCased form of that key; consequently a camelCased name appears as a
key only when it coincides with some descriptor's original icon name. -/
theorem initializeRequiredIcons_keys_are_original (camel : String → String)
    (allIcons : String → Option IconAsset) (tabs : List Tab) :
    (∀ e ∈ (initializeRequiredIcons camel allIcons tabs).1,
      (∃ t ∈ tabs, t.iconName = e.1) ∧ allIcons (camel e.1) = some e.2) ∧
    (∀ t ∈ tabs,
      (∃ e ∈ (initializeRequiredIcons camel allIcons tabs).1,
        e.1 = camel t.iconName) →
      ∃ t2 ∈ tabs, t2.iconName = camel t.iconName) := by
  have hmain : ∀ e ∈ (initializeRequiredIcons camel allIcons tabs).1,
      (∃ t ∈ tabs, t.iconName = e.1) ∧ allIcons (camel e.1) = some e.2 := by
    apply foldl_iconStep_entries camel allIcons
      (fun e => (∃ t ∈ tabs, t.iconName = e.1) ∧
        allIcons (camel e.1) = some e.2) tabs ([], [])
    · intro e he
      simp at he
    · intro t ht a ha
      exact ⟨⟨t, ht, rfl⟩, ha⟩
  refine ⟨hmain, ?_⟩
  rintro t ht ⟨e, he, hek⟩
  obtain ⟨⟨t2, ht2, hname⟩, _⟩ := hmain e he
  exact ⟨t2, ht2, hname.trans hek⟩

/-- Witness for the amended C10 on the clash example. -/
theorem initializeRequiredIcons_keys_are_original_witness :
    allIconsEx (camelEx "homeOutline") = some 1 ∧
    ∃ t2 ∈ clashTabsEx, t2.iconName = camelEx clashTab1Ex.iconName := by
  constructor
  · exact ((initializeRequiredIcons_keys_are_original camelEx allIconsEx
      clashTabsEx).1 ("homeOutline", 1) (by decide)).2
  · exact (initializeRequiredIcons_keys_are_original camelEx allIconsEx
      clashTabsEx).2 clashTab1Ex (by decide)
      ⟨("homeOutline", 1), by decide, by decide⟩

end DynamicTabs
